import Mathlib

/-!
Verification of the SSA intermediate-representation layer of the frugal
JIT compiler (`internal/atm/ssa/ir.go`), shallowly embedded in Lean.

Registers (`type Reg uint64`) pack a pointer flag (bit 63), a 4-bit kind
(bits 59–62) and a 59-bit index into one machine word; the embedding uses
`Nat` with the `uint64` range stated as a hypothesis where a claim needs it.
Go panics are modelled as `none` of an `Option` result.  Go maps (the phi
predecessor map and the switch branch table) are modelled as association
lists; a hypothesis of distinct keys stands for the Go map's key uniqueness,
and enumeration-order independence is proved explicitly where claimed.
-/

namespace FrugalSSA

/-- Registers are 64-bit words (ir.go line 28). -/
abbrev Reg := Nat

/-- Bit position of the pointer flag (ir.go lines 30-33). -/
def _B_ptr : Nat := 63

/-- Bit position of the kind field (ir.go lines 30-33). -/
def _B_kind : Nat := 59

/-- Unshifted mask of the pointer flag (ir.go lines 35-38). -/
def _M_ptr : Nat := 1

/-- Unshifted mask of the kind field (ir.go lines 35-38). -/
def _M_kind : Nat := 0x0f

/-- In-place mask of the pointer flag (ir.go lines 40-44). -/
def _R_ptr : Nat := _M_ptr <<< _B_ptr

/-- In-place mask of the kind field (ir.go lines 40-44). -/
def _R_kind : Nat := _M_kind <<< _B_kind

/-- In-place mask of the index field (ir.go lines 40-44). -/
def _R_index : Nat := (1 <<< _B_kind) - 1

/-- Largest generic register kind (ir.go lines 46-52). -/
def _K_max : Nat := 7

/-- Architecture-specific register kind (ir.go lines 46-52). -/
def _K_arch : Nat := 12

/-- Zero-register kind (ir.go lines 46-52). -/
def _K_zero : Nat := 13

/-- Temporary-register kind (ir.go lines 46-52). -/
def _K_temp : Nat := 14

/-- SSA-normalized register kind (ir.go lines 46-52). -/
def _K_norm : Nat := 15

/-- The non-pointer zero register (ir.go lines 54-57). -/
def Rz : Reg := (0 <<< _B_ptr) ||| (_K_zero <<< _B_kind)

/-- The pointer nil register (ir.go lines 54-57). -/
def Pn : Reg := (1 <<< _B_ptr) ||| (_K_zero <<< _B_kind)

/-- The non-pointer temporary register (ir.go lines 59-62). -/
def Tr : Reg := (0 <<< _B_ptr) ||| (_K_temp <<< _B_kind)

/-- The pointer temporary register (ir.go lines 59-62). -/
def Pr : Reg := (1 <<< _B_ptr) ||| (_K_temp <<< _B_kind)

/-- Register constructor (ir.go lines 64-70).  The Go function panics when
`kind > _K_max`; the panic is modelled as `none`. -/
def mkreg (ptr : Nat) (kind : Nat) : Option Reg :=
  if kind > _K_max then
    none
  else
    some (((ptr &&& _M_ptr) <<< _B_ptr) ||| ((kind &&& _M_kind) <<< _B_kind))

/-- Pointer-flag accessor (ir.go lines 80-82). -/
def Reg.Ptr (self : Reg) : Bool := self &&& _R_ptr != 0

/-- Index accessor (ir.go lines 84-86). -/
def Reg.Index (self : Reg) : Nat := self &&& _R_index

/-- Kind accessor (ir.go lines 144-146). -/
def Reg.kind (self : Reg) : Nat := (self &&& _R_kind) >>> _B_kind

/-- Map a register to the canonical zero register of its pointer-ness
(ir.go lines 136-142). -/
def Reg.zero (self : Reg) : Reg := if Reg.Ptr self then Pn else Rz

/-- Replace the index, keeping pointer flag and kind (ir.go lines 148-150).
The Go parameter is an `int`; the claims only concern indices representable
in the 59-bit field, embedded as `Nat`. -/
def Reg.rename (self : Reg) (i : Nat) : Reg :=
  (self &&& (_R_ptr ||| _R_kind)) ||| (i &&& _R_index)

/-- Force the kind to `_K_norm`, keeping the pointer flag and replacing the
index (ir.go lines 152-154). -/
def Reg.normalize (self : Reg) (i : Nat) : Reg :=
  (self &&& _R_ptr) ||| (_K_norm <<< _B_kind) ||| (i &&& _R_index)

/-- Modelled from the spec: `regsliceref` (defined elsewhere in the `ssa`
package, outside the given sources) turns a register slice into the list of
its element locations; locations are modelled by register values. -/
def regsliceref (rs : List Reg) : List Reg := rs

/-- Modelled from the spec: a basic block.  The `BasicBlock` type lives in
another file of the `ssa` package outside the given sources; the claims only
use its integer identifier `Id`. -/
structure BasicBlock where
  Id : Int
deriving DecidableEq

/-- Comparison sort by an integer key, modelling Go's `sort.Slice`/`sort.Sort`
with a strict `Less` on the key (`_PhiSorter.Less`, ir.go lines 201-203, and
the closure at ir.go lines 328-330).  Go's sort is unstable, so its output is
specified only up to key ties; with the distinct keys a Go map guarantees it
is exactly this sorted arrangement. -/
def sortByKey {α : Type} (key : α → Int) (l : List α) : List α :=
  List.insertionSort (fun a b => key a ≤ key b) l

/-- SSA merge node (ir.go lines 205-208).  The Go field `V` is a
`map[*BasicBlock]*Reg`; it is modelled as an association list, one entry per
map entry, in some enumeration order. -/
structure IrPhi where
  R : Reg
  V : List (BasicBlock × Reg)

/-- Source registers of a phi, sorted by predecessor block id
(ir.go lines 238-251): the ids and registers are dumped from the map and
sorted together by id via `_PhiSorter` (ir.go lines 187-203). -/
def IrPhi.Usages (self : IrPhi) : List Reg :=
  (sortByKey (fun p => p.1) (self.V.map fun p => (p.1.Id, p.2))).map Prod.snd

/-- The single register defined by a phi (ir.go lines 253-255). -/
def IrPhi.Definations (self : IrPhi) : List Reg := [self.R]

/-- One switch edge: discriminant value and target block (ir.go lines 272-275). -/
structure _SwitchTarget where
  i : Int
  b : BasicBlock
deriving DecidableEq

/-- Successor iterator of a switch: a cursor into the edge table
(ir.go lines 277-280). -/
structure _SwitchSuccessors where
  i : Int
  t : List _SwitchTarget
deriving DecidableEq

/-- Advance the cursor and report whether an edge remains (ir.go lines 282-285).
The Go method mutates the receiver; the embedding returns the advanced state. -/
def _SwitchSuccessors.Next (self : _SwitchSuccessors) : Bool × _SwitchSuccessors :=
  let s : _SwitchSuccessors := ⟨self.i + 1, self.t⟩
  (decide (s.i < (s.t.length : Int)), s)

/-- Target block of the current edge, `none` past the end
(ir.go lines 287-293); an out-of-range access below the table (impossible
after a successful `Next`) is also `none`. -/
def _SwitchSuccessors.Block (self : _SwitchSuccessors) : Option BasicBlock :=
  if (self.t.length : Int) ≤ self.i then
    none
  else if self.i < 0 then
    none
  else
    (self.t.get? self.i.toNat).map _SwitchTarget.b

/-- Discriminant value of the current edge with `true`, or `(0, false)` on the
last (default) edge (ir.go lines 295-301); `none` models the Go panic of an
access below the table, unreachable through `Next`. -/
def _SwitchSuccessors.Value (self : _SwitchSuccessors) : Option (Int × Bool) :=
  if (self.t.length : Int) - 1 ≤ self.i then
    some (0, false)
  else if self.i < 0 then
    none
  else
    (self.t.get? self.i.toNat).map fun tgt => (tgt.i, true)

/-- Exhaust an iterator: keep calling `Next` and record `(Block, Value)` for
every reported edge.  The fuel argument only bounds the recursion; from a
fresh cursor, `t.length + 1` steps always suffice. -/
def drainFrom : Nat → _SwitchSuccessors → List (Option BasicBlock × Option (Int × Bool))
  | 0, _ => []
  | fuel + 1, s =>
    let r := _SwitchSuccessors.Next s
    if r.1 then
      (_SwitchSuccessors.Block r.2, _SwitchSuccessors.Value r.2) :: drainFrom fuel r.2
    else
      []

/-- The full edge sequence an iterator yields. -/
def _SwitchSuccessors.drain (self : _SwitchSuccessors) : List (Option BasicBlock × Option (Int × Bool)) :=
  drainFrom (self.t.length + 1) self

/-- Switch terminator: discriminant register, default block, branch table
(ir.go lines 303-307).  The Go field `Br` is a `map[int64]*BasicBlock`,
modelled as an association list, one entry per map entry. -/
structure IrSwitch where
  V : Reg
  Ln : BasicBlock
  Br : List (Int × BasicBlock)

/-- Build the successor iterator (ir.go lines 309-337): dump the branch map,
append the default edge, sort the first `n` slots by discriminant value, and
start the cursor at `-1`. -/
def IrSwitch.iter (self : IrSwitch) : _SwitchSuccessors :=
  let n := self.Br.length
  let t := (self.Br.map fun p => _SwitchTarget.mk p.1 p.2) ++ [_SwitchTarget.mk 0 self.Ln]
  ⟨-1, sortByKey _SwitchTarget.i (t.take n) ++ t.drop n⟩

/-- `Successors` returns a fresh iterator on every call (ir.go lines 371-373). -/
def IrSwitch.Successors (self : IrSwitch) : _SwitchSuccessors := self.iter

/-- Registers a switch reads (ir.go lines 367-369). -/
def IrSwitch.Usages (self : IrSwitch) : List Reg := [self.V]

/-- Render a register (ir.go lines 88-134).  The architecture-specific name
table (`ArchRegs`/`ArchRegNames`, defined in arch files outside the given
sources) is passed as the composed list `arch` of names indexed by register
index; an index beyond the table panics in Go, modelled as `none`. -/
def Reg.render (arch : List String) (self : Reg) : Option String :=
  if Reg.kind self = _K_arch then
    (arch.get? (Reg.Index self)).map fun name => "%" ++ name
  else if Reg.kind self = _K_zero then
    some (if Reg.Ptr self then "nil" else "$0")
  else if Reg.kind self = _K_temp then
    some (if Reg.Ptr self then "%tp" ++ toString (Reg.Index self)
          else "%tr" ++ toString (Reg.Index self))
  else if Reg.kind self = _K_norm then
    some (if Reg.Ptr self then "%p" ++ toString (Reg.Index self)
          else "%r" ++ toString (Reg.Index self))
  else
    some (if Reg.Ptr self then
            "%p" ++ toString (Reg.kind self) ++ "." ++ toString (Reg.Index self)
          else
            "%r" ++ toString (Reg.kind self) ++ "." ++ toString (Reg.Index self))

/-- Render a switch (ir.go lines 339-365): with no branches it degenerates to
a plain `goto`; otherwise the sorted cases of `iter` are listed, the default
branch last, inside a `switch` block. -/
def IrSwitch.render (arch : List String) (self : IrSwitch) : Option String :=
  let n := self.Br.length
  if n = 0 then
    some ("goto bb_" ++ toString self.Ln.Id)
  else
    let cs := ((IrSwitch.iter self).t.take n).map fun v =>
      "  " ++ toString v.i ++ " => bb_" ++ toString v.b.Id ++ ","
    let dfl := "  _ => bb_" ++ toString self.Ln.Id ++ ","
    (Reg.render arch self.V).map fun vs =>
      "switch " ++ vs ++ " \x7b\n" ++ String.intercalate "\n" (cs ++ [dfl]) ++ "\n\x7d"

/-- Modelled from the spec: the three calling conventions carried by a
`hir.CallHandle` (the `hir` package is outside the given sources): native
(`CCall`), managed (`GCall`) and interface/dynamic dispatch (`ICall`). -/
inductive CallType where
  | CCall : CallType
  | GCall : CallType
  | ICall : CallType
deriving DecidableEq

/-- Modelled from the spec: a call descriptor (`hir.CallHandle`, outside the
given sources) carrying the call kind, the slot number used by dynamic
dispatch (the Go field is named `Type`, a Lean keyword, embedded as `Ftype`),
and a textual function descriptor standing for the Go
method `CallHandle.String`. -/
structure CallHandle where
  Ftype : CallType
  Slot : Nat
  Fdesc : String
deriving DecidableEq

/-- Receiver pair of a dynamic call (ir.go lines 631-634). -/
structure IrReceiver where
  T : Reg
  V : Reg
deriving DecidableEq

/-- Call node (ir.go lines 636-641).  The Go receiver field is a nilable
pointer, modelled as an `Option`. -/
structure IrCall where
  Fn : CallHandle
  Rx : Option IrReceiver
  In : List Reg
  Out : List Reg
deriving DecidableEq

/-- Render a call (ir.go lines 643-687).  The first statement panics — `none`
here — exactly when receiver presence disagrees with the call kind:
`(self.Rx == nil) == (self.Fn.Ftype == hir.ICall)`. -/
def IrCall.render (arch : List String) (self : IrCall) : Option String :=
  if self.Rx.isNone = decide (self.Fn.Ftype = CallType.ICall) then
    none
  else
    let kind := match self.Fn.Ftype with
      | CallType.CCall => "ccall"
      | CallType.GCall => "gcall"
      | CallType.ICall => "icall"
    let desc := if self.Fn.Ftype ≠ CallType.ICall then self.Fn.Fdesc
                else "#" ++ toString self.Fn.Slot
    do
      let recv ← match self.Rx with
        | none => pure ""
        | some rx => do
          let t ← Reg.render arch rx.T
          let v ← Reg.render arch rx.V
          pure (", \x7b" ++ t ++ ", " ++ v ++ "\x7d")
      let ins ← self.In.mapM (Reg.render arch)
      let outs ← self.Out.mapM (Reg.render arch)
      if outs.length = 0 then
        pure (kind ++ " " ++ desc ++ recv ++ ", \x7b" ++ String.intercalate ", " ins ++ "\x7d")
      else
        pure (String.intercalate ", " outs ++ " = " ++ kind ++ " " ++ desc ++ recv ++
              ", \x7b" ++ String.intercalate ", " ins ++ "\x7d")

/-- Registers a call reads: the receiver pair, if any, precedes the inputs
(ir.go lines 689-695). -/
def IrCall.Usages (self : IrCall) : List Reg :=
  match self.Rx with
  | none => regsliceref self.In
  | some rx => [rx.T, rx.V] ++ regsliceref self.In

/-- Registers a call writes (ir.go lines 697-699). -/
def IrCall.Definations (self : IrCall) : List Reg := regsliceref self.Out

/-- Binary operators (ir.go lines 522-535). -/
inductive IrBinaryOp where
  | IrOpAdd : IrBinaryOp
  | IrOpSub : IrBinaryOp
  | IrOpMul : IrBinaryOp
  | IrOpAnd : IrBinaryOp
  | IrOpOr : IrBinaryOp
  | IrOpXor : IrBinaryOp
  | IrOpShr : IrBinaryOp
  | IrCmpEq : IrBinaryOp
  | IrCmpNe : IrBinaryOp
  | IrCmpLt : IrBinaryOp
  | IrCmpLtu : IrBinaryOp
  | IrCmpGeu : IrBinaryOp
deriving DecidableEq

/-- Binary expression node (ir.go lines 584-589). -/
structure IrBinaryExpr where
  R : Reg
  X : Reg
  Y : Reg
  Op : IrBinaryOp
deriving DecidableEq

/-- A copy is encoded as `r = v + Rz` (ir.go lines 591-598). -/
def IrCopy (r : Reg) (v : Reg) : IrBinaryExpr :=
  ⟨r, v, Rz, IrBinaryOp.IrOpAdd⟩

/-- Registers a binary expression reads (ir.go lines 604-606). -/
def IrBinaryExpr.Usages (self : IrBinaryExpr) : List Reg := [self.X, self.Y]

/-- Registers a binary expression writes (ir.go lines 608-610). -/
def IrBinaryExpr.Definations (self : IrBinaryExpr) : List Reg := [self.R]

theorem nat_and_or_right (a b c : Nat) : (a ||| b) &&& c = (a &&& c) ||| (b &&& c) := by
  apply Nat.eq_of_testBit_eq
  intro i
  simp [Nat.testBit_land, Nat.testBit_lor, Bool.and_or_distrib_right]

theorem nat_and_mask (a k : Nat) : a &&& (2 ^ k - 1) = a % 2 ^ k := by
  apply Nat.eq_of_testBit_eq
  intro i
  simp [Nat.testBit_land, Nat.testBit_two_pow_sub_one, Nat.testBit_mod_two_pow, Bool.and_comm]

theorem ptr_rename (r : Reg) (i : Nat) : Reg.Ptr (Reg.rename r i) = Reg.Ptr r := by
  have h : Reg.rename r i &&& _R_ptr = r &&& _R_ptr := by
    unfold Reg.rename
    rw [nat_and_or_right, Nat.and_assoc, Nat.and_assoc]
    have e1 : (_R_ptr ||| _R_kind) &&& _R_ptr = _R_ptr := by decide
    have e2 : _R_index &&& _R_ptr = 0 := by decide
    rw [e1, e2, Nat.and_zero, Nat.or_zero]
  unfold Reg.Ptr
  rw [h]

theorem kind_rename (r : Reg) (i : Nat) : Reg.kind (Reg.rename r i) = Reg.kind r := by
  have h : Reg.rename r i &&& _R_kind = r &&& _R_kind := by
    unfold Reg.rename
    rw [nat_and_or_right, Nat.and_assoc, Nat.and_assoc]
    have e1 : (_R_ptr ||| _R_kind) &&& _R_kind = _R_kind := by decide
    have e2 : _R_index &&& _R_kind = 0 := by decide
    rw [e1, e2, Nat.and_zero, Nat.or_zero]
  unfold Reg.kind
  rw [h]

theorem index_rename (r : Reg) (i : Nat) : Reg.Index (Reg.rename r i) = i % 2 ^ 59 := by
  unfold Reg.Index Reg.rename
  rw [nat_and_or_right, Nat.and_assoc, Nat.and_assoc]
  have e1 : (_R_ptr ||| _R_kind) &&& _R_index = 0 := by decide
  have e2 : _R_index &&& _R_index = _R_index := by decide
  rw [e1, e2, Nat.and_zero, Nat.zero_or]
  have e3 : _R_index = 2 ^ 59 - 1 := by decide
  rw [e3, nat_and_mask]

theorem rename_rename (r : Reg) (i : Nat) :
    Reg.rename (Reg.rename r i) i = Reg.rename r i := by
  unfold Reg.rename
  rw [nat_and_or_right, Nat.and_assoc, Nat.and_assoc]
  have e1 : (_R_ptr ||| _R_kind) &&& (_R_ptr ||| _R_kind) = _R_ptr ||| _R_kind := by decide
  have e2 : _R_index &&& (_R_ptr ||| _R_kind) = 0 := by decide
  rw [e1, e2, Nat.and_zero, Nat.or_zero]

theorem kind_normalize (r : Reg) (i : Nat) : Reg.kind (Reg.normalize r i) = _K_norm := by
  unfold Reg.kind Reg.normalize
  rw [nat_and_or_right, nat_and_or_right, Nat.and_assoc, Nat.and_assoc]
  have e1 : _R_ptr &&& _R_kind = 0 := by decide
  have e2 : (_K_norm <<< _B_kind) &&& _R_kind = _K_norm <<< _B_kind := by decide
  have e3 : _R_index &&& _R_kind = 0 := by decide
  rw [e1, e2, e3, Nat.and_zero, Nat.and_zero, Nat.zero_or, Nat.or_zero]
  decide

theorem ptr_normalize (r : Reg) (i : Nat) : Reg.Ptr (Reg.normalize r i) = Reg.Ptr r := by
  have h : Reg.normalize r i &&& _R_ptr = r &&& _R_ptr := by
    unfold Reg.normalize
    rw [nat_and_or_right, nat_and_or_right, Nat.and_assoc, Nat.and_assoc]
    have e1 : _R_ptr &&& _R_ptr = _R_ptr := by decide
    have e2 : (_K_norm <<< _B_kind) &&& _R_ptr = 0 := by decide
    have e3 : _R_index &&& _R_ptr = 0 := by decide
    rw [e1, e2, e3, Nat.and_zero, Nat.or_zero, Nat.or_zero]
  unfold Reg.Ptr
  rw [h]

theorem sortByKey_perm {α : Type} (key : α → Int) (l : List α) :
    (sortByKey key l).Perm l :=
  List.perm_insertionSort _ l

theorem sortByKey_sorted {α : Type} (key : α → Int) (l : List α) :
    (sortByKey key l).Pairwise fun a b => key a ≤ key b := by
  haveI h1 : IsTotal α fun a b => key a ≤ key b :=
    ⟨fun a b => Int.le_total (key a) (key b)⟩
  haveI h2 : IsTrans α fun a b => key a ≤ key b :=
    ⟨fun _ _ _ hab hbc => le_trans hab hbc⟩
  exact List.sorted_insertionSort _ l

theorem sortByKey_strict {α : Type} (key : α → Int) (l : List α)
    (h : (l.map key).Nodup) :
    (sortByKey key l).Pairwise fun a b => key a < key b := by
  have hperm := sortByKey_perm key l
  have hnd : ((sortByKey key l).map key).Nodup := ((hperm.map key).nodup_iff).mpr h
  have hne : (sortByKey key l).Pairwise fun a b => key a ≠ key b :=
    List.pairwise_map.mp hnd
  exact ((sortByKey_sorted key l).and hne).imp fun hab => lt_of_le_of_ne hab.1 hab.2

theorem sortByKey_eq_of_perm {α : Type} (key : α → Int) {l₁ l₂ : List α}
    (hp : l₁.Perm l₂) (hnd : (l₂.map key).Nodup) :
    sortByKey key l₁ = sortByKey key l₂ := by
  haveI : IsAntisymm α fun a b => key a < key b ∨ a = b := ⟨by
    rintro a b (h₁ | rfl) (h₂ | h₂)
    · exact absurd (lt_trans h₁ h₂) (lt_irrefl _)
    · exact h₂.symm
    · rfl
    · rfl⟩
  have hnd₁ : (l₁.map key).Nodup := ((hp.map key).nodup_iff).mpr hnd
  have hs₁ := (sortByKey_strict key l₁ hnd₁).imp
    (fun h => Or.inl h : ∀ {a b : α}, key a < key b → key a < key b ∨ a = b)
  have hs₂ := (sortByKey_strict key l₂ hnd).imp
    (fun h => Or.inl h : ∀ {a b : α}, key a < key b → key a < key b ∨ a = b)
  exact List.eq_of_perm_of_sorted
    (((sortByKey_perm key l₁).trans hp).trans (sortByKey_perm key l₂).symm) hs₁ hs₂

/-- Claim C3: `Usages` of a phi is the register list of the pair table sorted by
predecessor block id — one source register per map entry, with strictly
ascending block ids, the same for every enumeration order of the map — and
`Definations` is exactly the merge target. -/
theorem irphi_usages_spec (R : Reg) (V : List (BasicBlock × Reg))
    (hnd : (V.map fun p => p.1.Id).Nodup) :
    IrPhi.Usages ⟨R, V⟩ =
      (sortByKey (fun p => p.1) (V.map fun p => (p.1.Id, p.2))).map Prod.snd ∧
    (IrPhi.Usages ⟨R, V⟩).Perm (V.map Prod.snd) ∧
    ((sortByKey (fun p => p.1) (V.map fun p => (p.1.Id, p.2))).map Prod.fst).Pairwise
      (· < ·) ∧
    (∀ V' : List (BasicBlock × Reg), V'.Perm V →
      IrPhi.Usages ⟨R, V'⟩ = IrPhi.Usages ⟨R, V⟩) ∧
    IrPhi.Definations ⟨R, V⟩ = [R] := by
  have hkeys : ((V.map fun p => (p.1.Id, p.2)).map (Prod.fst (β := Reg))).Nodup := by
    rw [List.map_map]
    exact hnd
  refine ⟨rfl, ?_, ?_, ?_, rfl⟩
  · have h1 := (sortByKey_perm (fun p : Int × Reg => p.1)
      (V.map fun p => (p.1.Id, p.2))).map (Prod.snd (α := Int))
    rw [List.map_map] at h1
    exact h1
  · exact List.pairwise_map.mpr
      (sortByKey_strict (fun p : Int × Reg => p.1) (V.map fun p => (p.1.Id, p.2)) hkeys)
  · intro V' hp
    show (sortByKey (fun p : Int × Reg => p.1) (V'.map fun p => (p.1.Id, p.2))).map
        Prod.snd = _
    rw [sortByKey_eq_of_perm (fun p : Int × Reg => p.1)
      (hp.map fun p => (p.1.Id, p.2)) hkeys]
    rfl

/-- Witness for C3: blocks with ids `{3,1,2}` mapped to registers
`{103,101,102}` yield `Usages = [101,102,103]`. -/
theorem irphi_usages_witness :
    IrPhi.Usages ⟨0, [(⟨3⟩, 103), (⟨1⟩, 101), (⟨2⟩, 102)]⟩ = [101, 102, 103] := by
  have h := (irphi_usages_spec 0 [(⟨3⟩, 103), (⟨1⟩, 101), (⟨2⟩, 102)] (by decide)).1
  exact h.trans (by decide)

/-- Claim C1 (counterexample): the reserved zero kind 13 is rejected by `mkreg`, so
the claim's exemption of the four reserved kinds fails at this input. -/
theorem mkreg_reserved_kind_rejected : mkreg 0 _K_zero = none := by decide

/-- Claim C1 (amended): `mkreg` fails exactly when the kind exceeds the maximum
generic-class value 7 — including the four reserved kinds 12-15, which are
never built through `mkreg`. -/
theorem mkreg_rejects_kinds_above_max (ptr kind : Nat) :
    mkreg ptr kind = none ↔ _K_max < kind := by
  unfold mkreg
  split <;> simp_all

/-- Claim C5: for every pointer flag in `{0,1}`, every kind accepted by `mkreg`
and every index representable in the 59-bit field, encoding the triple via
`mkreg` plus `rename` and decoding through `Ptr`, `kind` and `Index`
reproduces the triple exactly. -/
theorem reg_roundtrip (p k j : Nat) (hp : p < 2) (hk : k ≤ _K_max) (hj : j < 2 ^ 59)
    (r : Reg) (hr : mkreg p k = some r) :
    Reg.Ptr (Reg.rename r j) = decide (p = 1) ∧
    Reg.kind (Reg.rename r j) = k ∧
    Reg.Index (Reg.rename r j) = j := by
  have hk7 : k ≤ 7 := hk
  have hr' : r = ((p &&& _M_ptr) <<< _B_ptr) ||| ((k &&& _M_kind) <<< _B_kind) := by
    unfold mkreg at hr
    rw [if_neg (by omega)] at hr
    exact (Option.some.inj hr).symm
  subst hr'
  refine ⟨?_, ?_, ?_⟩
  · rw [ptr_rename]
    interval_cases p <;> interval_cases k <;> decide
  · rw [kind_rename]
    interval_cases p <;> interval_cases k <;> decide
  · rw [index_rename]
    exact Nat.mod_eq_of_lt hj

/-- Witness for C5 at the concrete triple `(1, 3, 5)`. -/
theorem reg_roundtrip_witness :
    Reg.Ptr (Reg.rename 10952754293765046272 5) = true ∧
    Reg.kind (Reg.rename 10952754293765046272 5) = 3 ∧
    Reg.Index (Reg.rename 10952754293765046272 5) = 5 := by
  have h := reg_roundtrip 1 3 5 (by decide) (by decide) (by decide)
    10952754293765046272 (by decide)
  simpa using h

/-- Claim C6: renaming is idempotent at a fixed index, and `normalize` always
yields the SSA-normalized kind while preserving the pointer flag. -/
theorem rename_normalize_props (r : Reg) (hr : r < 2 ^ 64) (i : Nat) (hi : i < 2 ^ 59) :
    Reg.rename (Reg.rename r i) i = Reg.rename r i ∧
    Reg.kind (Reg.normalize r i) = _K_norm ∧
    Reg.Ptr (Reg.normalize r i) = Reg.Ptr r :=
  ⟨rename_rename r i, kind_normalize r i, ptr_normalize r i⟩

/-- Witness for C6 at the register `5` and index `3`. -/
theorem rename_normalize_props_witness :
    Reg.rename (Reg.rename 5 3) 3 = Reg.rename 5 3 ∧
    Reg.kind (Reg.normalize 5 3) = _K_norm ∧
    Reg.Ptr (Reg.normalize 5 3) = Reg.Ptr 5 :=
  rename_normalize_props 5 (by decide) 3 (by decide)

/-- Claim C7: `zero` fixes the two zero registers and maps every register to the
canonical zero of its pointer-ness. -/
theorem zero_mapping :
    Reg.zero Rz = Rz ∧ Reg.zero Pn = Pn ∧
    ∀ r : Reg, (Reg.Ptr r = false → Reg.zero r = Rz) ∧
      (Reg.Ptr r = true → Reg.zero r = Pn) := by
  refine ⟨by decide, by decide, fun r => ⟨fun h => ?_, fun h => ?_⟩⟩ <;> simp [Reg.zero, h]

/-- Witness for C7 at the non-pointer register `0` and the pointer register `Pn`. -/
theorem zero_mapping_witness : Reg.zero 0 = Rz ∧ Reg.zero Pn = Pn :=
  ⟨(zero_mapping.2.2 0).1 (by decide), (zero_mapping.2.2 Pn).2 (by decide)⟩

/-- Claim C9: rendering ignores the index of a zero-kind register: any renaming of
`Rz` still prints as the literal `$0` and any renaming of `Pn` as `nil`. -/
theorem zero_reg_render_ignores_index (arch : List String) (i : Nat) :
    Reg.render arch (Reg.rename Rz i) = some "$0" ∧
    Reg.render arch (Reg.rename Pn i) = some "nil" := by
  have hk1 : Reg.kind (Reg.rename Rz i) = _K_zero := by rw [kind_rename]; decide
  have hp1 : Reg.Ptr (Reg.rename Rz i) = false := by rw [ptr_rename]; decide
  have hk2 : Reg.kind (Reg.rename Pn i) = _K_zero := by rw [kind_rename]; decide
  have hp2 : Reg.Ptr (Reg.rename Pn i) = true := by rw [ptr_rename]; decide
  constructor <;>
    simp [Reg.render, hk1, hp1, hk2, hp2, _K_zero, _K_arch, _K_temp, _K_norm]

/-- Claim C10: a copy of `v` into `r` is the binary expression `r = v + Rz`, with
the non-pointer zero `Rz` (never `Pn`) as second operand for every `r` and
`v`; it reads exactly `v` then `Rz` and writes exactly `r`. -/
theorem ircopy_spec (r v : Reg) :
    (IrCopy r v).Op = IrBinaryOp.IrOpAdd ∧
    (IrCopy r v).Y = Rz ∧
    (IrCopy r v).Y ≠ Pn ∧
    IrBinaryExpr.Usages (IrCopy r v) = [v, Rz] ∧
    IrBinaryExpr.Definations (IrCopy r v) = [r] :=
  ⟨rfl, rfl, (by decide : Rz ≠ Pn), rfl, rfl⟩

theorem block_cons (x : _SwitchTarget) (xs : List _SwitchTarget) (j : Int) (hj : 0 ≤ j) :
    _SwitchSuccessors.Block ⟨j + 1, x :: xs⟩ = _SwitchSuccessors.Block ⟨j, xs⟩ := by
  simp only [_SwitchSuccessors.Block, List.length_cons]
  by_cases hc : (xs.length : Int) ≤ j
  · rw [if_pos (by push_cast; omega), if_pos hc]
  · rw [if_neg (by push_cast; omega), if_neg hc, if_neg (by omega), if_neg (by omega)]
    have h1 : (j + 1).toNat = j.toNat + 1 := by omega
    rw [h1, List.get?_cons_succ]

theorem value_cons (x : _SwitchTarget) (xs : List _SwitchTarget) (j : Int) (hj : 0 ≤ j) :
    _SwitchSuccessors.Value ⟨j + 1, x :: xs⟩ = _SwitchSuccessors.Value ⟨j, xs⟩ := by
  simp only [_SwitchSuccessors.Value, List.length_cons]
  by_cases hc : (xs.length : Int) - 1 ≤ j
  · rw [if_pos (by push_cast; omega), if_pos hc]
  · rw [if_neg (by push_cast; omega), if_neg hc, if_neg (by omega), if_neg (by omega)]
    have h1 : (j + 1).toNat = j.toNat + 1 := by omega
    rw [h1, List.get?_cons_succ]

theorem drainFrom_shift : ∀ (fuel : Nat) (x : _SwitchTarget) (xs : List _SwitchTarget)
    (j : Int), 0 ≤ j → drainFrom fuel ⟨j, x :: xs⟩ = drainFrom fuel ⟨j - 1, xs⟩ := by
  intro fuel
  induction fuel with
  | zero => intro x xs j hj; rfl
  | succ n ih =>
    intro x xs j hj
    simp only [drainFrom, _SwitchSuccessors.Next]
    have hj1 : j - 1 + 1 = j := by omega
    rw [hj1]
    have hcond : (decide (j + 1 < ((x :: xs).length : Int))) =
        (decide (j < (xs.length : Int))) := by
      apply decide_eq_decide.mpr
      simp only [List.length_cons]
      push_cast
      omega
    rw [hcond]
    by_cases hc : j < (xs.length : Int)
    · simp only [hc, decide_True, if_true]
      rw [block_cons x xs j hj, value_cons x xs j hj, ih x xs (j + 1) (by omega)]
      have h2 : j + 1 - 1 = j := by omega
      rw [h2]
    · simp only [hc, decide_False]
      rfl

theorem drainFrom_shape : ∀ (es : List _SwitchTarget) (d : _SwitchTarget) (fuel : Nat),
    es.length + 1 < fuel →
    drainFrom fuel ⟨-1, es ++ [d]⟩ =
      es.map (fun e => (some e.b, some (e.i, true))) ++
        [(some d.b, some ((0 : Int), false))] := by
  intro es
  induction es with
  | nil =>
    intro d fuel hf
    obtain ⟨g, rfl⟩ : ∃ g, fuel = g + 2 := ⟨fuel - 2, by omega⟩
    rfl
  | cons x es ih =>
    intro d fuel hf
    obtain ⟨g, rfl⟩ : ∃ g, fuel = g + 1 := ⟨fuel - 1, by omega⟩
    have hlen : ((x :: (es ++ [d])).length : Int) = (es.length : Int) + 2 := by
      simp [List.length_append]
      ring
    simp only [drainFrom, _SwitchSuccessors.Next, List.cons_append]
    rw [show (-1 : Int) + 1 = 0 from by norm_num]
    rw [show (decide ((0 : Int) < ((x :: (es ++ [d])).length : Int))) = true from
      decide_eq_true (by rw [hlen]; omega)]
    rw [if_pos rfl]
    have hb : _SwitchSuccessors.Block ⟨0, x :: (es ++ [d])⟩ = some x.b := by
      simp only [_SwitchSuccessors.Block]
      rw [if_neg (by rw [hlen]; omega), if_neg (by norm_num)]
      rfl
    have hv : _SwitchSuccessors.Value ⟨0, x :: (es ++ [d])⟩ = some (x.i, true) := by
      simp only [_SwitchSuccessors.Value]
      rw [if_neg (by rw [hlen]; omega), if_neg (by norm_num)]
      rfl
    rw [hb, hv]
    have hshift := drainFrom_shift g x (es ++ [d]) 0 le_rfl
    rw [show (0 : Int) - 1 = -1 from by norm_num] at hshift
    rw [hshift, ih d g (by simp only [List.length_cons] at hf; omega)]
    simp

/-- Claim C2: for a switch whose branch table has distinct discriminants (as a
Go map guarantees), exhausting a fresh `Successors()` iterator yields exactly
one edge per branch, sorted by strictly ascending discriminant, each reporting
its discriminant with `true`, followed by the default edge last reporting
`(0, false)`; the sequence is finite of length `|Br| + 1` and every call to
`Successors()` restarts at cursor `-1`. -/
theorem irswitch_successors_spec (sw : IrSwitch)
    (hnd : (sw.Br.map Prod.fst).Nodup) :
    _SwitchSuccessors.drain (IrSwitch.Successors sw) =
      (sortByKey _SwitchTarget.i (sw.Br.map fun p => _SwitchTarget.mk p.1 p.2)).map
          (fun e => (some e.b, some (e.i, true))) ++
        [(some sw.Ln, some ((0 : Int), false))] ∧
    (sortByKey _SwitchTarget.i (sw.Br.map fun p => _SwitchTarget.mk p.1 p.2)).Perm
      (sw.Br.map fun p => _SwitchTarget.mk p.1 p.2) ∧
    ((sortByKey _SwitchTarget.i (sw.Br.map fun p => _SwitchTarget.mk p.1 p.2)).map
        _SwitchTarget.i).Pairwise (· < ·) ∧
    (_SwitchSuccessors.drain (IrSwitch.Successors sw)).length = sw.Br.length + 1 ∧
    (IrSwitch.Successors sw).i = -1 := by
  set br := sw.Br.map fun p => _SwitchTarget.mk p.1 p.2 with hbr
  set es := sortByKey _SwitchTarget.i br with hes
  have hlen : br.length = sw.Br.length := List.length_map _ _
  have ht : (IrSwitch.iter sw).t = es ++ [_SwitchTarget.mk 0 sw.Ln] := by
    show sortByKey _SwitchTarget.i ((br ++ [_SwitchTarget.mk 0 sw.Ln]).take sw.Br.length) ++
        (br ++ [_SwitchTarget.mk 0 sw.Ln]).drop sw.Br.length = _
    rw [← hlen, List.take_left, List.drop_left]
  have hsucc : IrSwitch.Successors sw = ⟨-1, es ++ [_SwitchTarget.mk 0 sw.Ln]⟩ := by
    show IrSwitch.iter sw = _
    have h0 : IrSwitch.iter sw = ⟨(IrSwitch.iter sw).i, (IrSwitch.iter sw).t⟩ := rfl
    rw [h0, ht]
    rfl
  have heslen : es.length = sw.Br.length := (sortByKey_perm _ br).length_eq.trans hlen
  have hdrain : _SwitchSuccessors.drain (IrSwitch.Successors sw) =
      es.map (fun e => (some e.b, some (e.i, true))) ++
        [(some sw.Ln, some ((0 : Int), false))] := by
    rw [hsucc]
    exact drainFrom_shape es _ _ (by simp)
  refine ⟨hdrain, sortByKey_perm _ br, ?_, ?_, ?_⟩
  · have hkeys : (br.map _SwitchTarget.i).Nodup := by
      rw [hbr, List.map_map]
      exact hnd
    exact List.pairwise_map.mpr (sortByKey_strict _ br hkeys)
  · rw [hdrain]
    simp [heslen]
  · rw [hsucc]

/-- Witness for C2: branches `{5 ↦ bb5, 1 ↦ bb1}` with default `bb9` drain to
`[(bb1, 1, true), (bb5, 5, true), (bb9, 0, false)]`. -/
theorem irswitch_successors_witness :
    _SwitchSuccessors.drain (IrSwitch.Successors ⟨Rz, ⟨9⟩, [(5, ⟨5⟩), (1, ⟨1⟩)]⟩) =
      [(some ⟨1⟩, some ((1 : Int), true)), (some ⟨5⟩, some ((5 : Int), true)),
       (some ⟨9⟩, some ((0 : Int), false))] := by
  have h := (irswitch_successors_spec ⟨Rz, ⟨9⟩, [(5, ⟨5⟩), (1, ⟨1⟩)]⟩ (by decide)).1
  exact h.trans (by decide)

/-- Claim C8: a switch with an empty branch table renders as the unconditional
jump `goto bb_<id>` to its default block, while a switch with at least one
branch renders as a `switch` block. -/
theorem irswitch_render_spec (arch : List String) (sw : IrSwitch) :
    (sw.Br = [] → IrSwitch.render arch sw = some ("goto bb_" ++ toString sw.Ln.Id)) ∧
    (sw.Br ≠ [] → ∀ s, IrSwitch.render arch sw = some s →
      ∃ rest, s = "switch " ++ rest) := by
  constructor
  · intro h
    unfold IrSwitch.render
    rw [h]
    rfl
  · intro h s hs
    unfold IrSwitch.render at hs
    rw [if_neg (fun hc => h (List.length_eq_zero.mp hc))] at hs
    cases hv : Reg.render arch sw.V with
    | none => rw [hv] at hs; exact absurd hs (by simp)
    | some vs =>
      rw [hv] at hs
      simp only [Option.map_some'] at hs
      have h2 := Option.some.inj hs
      exact ⟨_, h2.symm.trans (String.append_assoc _ _ _)⟩

/-- Witness for C8: an empty-branch switch to `bb_7` renders as `goto bb_7`,
and a one-branch switch renders as a `switch` block. -/
theorem irswitch_render_witness :
    IrSwitch.render [] ⟨Rz, ⟨7⟩, []⟩ = some "goto bb_7" ∧
    ∃ rest, "switch $0 \x7b\n  1 => bb_2,\n  _ => bb_9,\n\x7d" = "switch " ++ rest :=
  ⟨(irswitch_render_spec [] ⟨Rz, ⟨7⟩, []⟩).1 rfl,
   (irswitch_render_spec [] ⟨Rz, ⟨9⟩, [(1, ⟨2⟩)]⟩).2 (by decide) _ (by rfl)⟩

/-- Claim C4 (counterexample): a dynamic-dispatch call without a receiver is
constructed freely — `Usages` processes it without failure — so nothing fails
at construction time; the mismatch is only rejected when rendering. -/
theorem ircall_mismatch_constructs :
    IrCall.Usages ⟨⟨CallType.ICall, 3, "f"⟩, none, [], []⟩ = [] ∧
    IrCall.render [] ⟨⟨CallType.ICall, 3, "f"⟩, none, [], []⟩ = none :=
  ⟨rfl, rfl⟩

/-- Claim C4 (amended): receiver mismatch is rejected when the call is
rendered, in both directions — `String` panics (`none`) whenever receiver
absence coincides with the call being dynamic dispatch, i.e. for a dynamic
call without receiver and for a native/managed call with one. -/
theorem ircall_render_rejects_mismatch (arch : List String) (c : IrCall)
    (h : c.Rx = none ↔ c.Fn.Ftype = CallType.ICall) :
    IrCall.render arch c = none := by
  unfold IrCall.render
  have hcond : c.Rx.isNone = decide (c.Fn.Ftype = CallType.ICall) := by
    by_cases hT : c.Fn.Ftype = CallType.ICall
    · rw [h.mpr hT, hT]
      rfl
    · cases hRx : c.Rx with
      | none => exact absurd (h.mp hRx) hT
      | some rx => simp [hRx, hT]
  rw [if_pos hcond]

/-- Witness for the amended C4: a native call carrying a receiver is rejected
by `render`. -/
theorem ircall_render_rejects_mismatch_witness :
    IrCall.render [] ⟨⟨CallType.CCall, 0, "g"⟩, some ⟨Pn, Pr⟩, [], []⟩ = none :=
  ircall_render_rejects_mismatch [] ⟨⟨CallType.CCall, 0, "g"⟩, some ⟨Pn, Pr⟩, [], []⟩
    (by decide)

end FrugalSSA
